import Mathlib

set_option maxHeartbeats 1000000

/-!
Shallow embedding of the command-fallback logic of the Sigma file-manager
example extension (src/index.js).  External collaborators are modelled as
explicit parameters: the host process-execution capability becomes a function
from a candidate to its outcome, the binary path resolver becomes a value of
`ResolveOutcome`, and the cancellation token becomes the sequence of values
its `isCancellationRequested` flag takes at successive reads.  Thrown
JavaScript errors are modelled as `JsError` values carrying an identity tag
(so that propagating the very same error object is expressible as value
equality) and a message.  Each runner additionally records, in order, the
command identifiers it passed to the execution capability, so that statements
about which candidates were attempted are about the same definition that
computes the result.
-/

/-- A thrown JavaScript error: an identity tag plus the message text. -/
structure JsError where
  errId : Nat
  message : String
deriving DecidableEq

/-- Embeds `getErrorMessage` (src/index.js lines 7-11).  Thrown values are
modelled as Error objects, so the message field is read directly; the string
and stringify branches of the source handle non-Error throwables, which the
execution-capability contract (spec section 6) does not produce. -/
def getErrorMessage (error : JsError) : String :=
  error.message

/-- Per-character lower-casing, embedding the effect of JavaScript
`String.prototype.toLowerCase` on the ASCII messages this code inspects. -/
def strToLower (s : String) : String :=
  ⟨s.data.map Char.toLower⟩

/-- Substring occurrence on character lists: does the second list contain
`pat` as a contiguous run (JavaScript `String.prototype.includes`). -/
def substrList (pat : List Char) : List Char → Bool
  | [] => pat.isPrefixOf []
  | c :: rest => pat.isPrefixOf (c :: rest) || substrList pat rest

/-- JavaScript `includes` on strings. -/
def strIncludes (s pat : String) : Bool :=
  substrList pat.data s.data

/-- Embeds `isCommandNotFoundError` (src/index.js lines 13-20): the message,
lower-cased, is scanned for the three not-found substrings. -/
def isCommandNotFoundError (error : JsError) : Bool :=
  let errorMessage := strToLower (getErrorMessage error)
  strIncludes errorMessage "not found"
    || strIncludes errorMessage "does not exist"
    || strIncludes errorMessage "cannot find"

/-- The single-quote character. -/
def sqc : Char := Char.ofNat 39

/-- Image of one character under the PowerShell single-quote escaping rule:
a single quote is doubled, any other character is unchanged. -/
def dupQuote (c : Char) : List Char :=
  if c = sqc then [sqc, sqc] else [c]

/-- Embeds `escapeForPowerShellSingleQuotes` (src/index.js lines 22-24):
replace every single-quote character with two single quotes. -/
def escapeForPowerShellSingleQuotes (text : String) : String :=
  ⟨(text.data.map dupQuote).flatten⟩

/-- Modelled from the spec: the body of a PowerShell single-quoted string
literal as the external shell parses it (the shell is a collaborator, not
part of this repository).  A doubled single quote denotes one literal single
quote; a lone single quote terminates the literal, contributing nothing. -/
def parseSingleQuotedBody : List Char → List Char
  | [] => []
  | [c] => if c = sqc then [] else [c]
  | c :: c2 :: rest =>
    if c = sqc then
      if c2 = sqc then sqc :: parseSingleQuotedBody rest else []
    else
      c :: parseSingleQuotedBody (c2 :: rest)

/-- A command candidate: executable identifier plus arguments. -/
structure CommandCandidate where
  command : String
  args : List String
deriving DecidableEq

/-- Result of a completed external process. -/
structure ExecResult where
  code : Int
  stdout : String
  stderr : String
deriving DecidableEq

/-- Outcome of invoking the injected execution capability on one candidate:
the returned promise either resolves with a result or rejects with an
error. -/
inductive ExecOutcome where
  | success (r : ExecResult)
  | failure (e : JsError)
deriving DecidableEq

/-- Successful return value of `runFirstAvailableCommand`
(src/index.js line 162). -/
structure RunOk where
  result : ExecResult
  commandName : String
deriving DecidableEq

deriving instance DecidableEq for Except

/-- A run of the plain fallback runner together with its attempt trace:
`attempts` lists, in order, the command identifiers handed to the execution
capability. -/
structure RunTrace where
  attempts : List String
  outcome : Except JsError RunOk
deriving DecidableEq

/-- Error thrown when the candidate list is exhausted and no error was
remembered (src/index.js line 172). -/
def noCandidatesError : JsError :=
  ⟨0, "No available command candidates"⟩

/-- Embeds the loop of `runFirstAvailableCommand` (src/index.js lines
156-173), threading the `latestError` variable. -/
def runFirstGo (exec : CommandCandidate → ExecOutcome) :
    List CommandCandidate → Option JsError → RunTrace
  | [], latestError => ⟨[], .error (latestError.getD noCandidatesError)⟩
  | commandCandidate :: rest, _latestError =>
    match exec commandCandidate with
    | .success r => ⟨[commandCandidate.command], .ok ⟨r, commandCandidate.command⟩⟩
    | .failure e =>
      if isCommandNotFoundError e then
        let tr := runFirstGo exec rest (some e)
        ⟨commandCandidate.command :: tr.attempts, tr.outcome⟩
      else ⟨[commandCandidate.command], .error e⟩

/-- Embeds `runFirstAvailableCommand` (src/index.js lines 156-173). -/
def runFirstAvailableCommand (exec : CommandCandidate → ExecOutcome)
    (commandCandidates : List CommandCandidate) : RunTrace :=
  runFirstGo exec commandCandidates none

/-- Outcome of the progress-reporting runner: the cancelled record, the
success record (result plus command name), or a thrown error. -/
inductive PROutcome where
  | cancelled
  | ok (result : ExecResult) (commandName : String)
  | err (e : JsError)
deriving DecidableEq

/-- A run of the progress-reporting runner together with its attempt trace. -/
structure PRunTrace where
  attempts : List String
  outcome : PROutcome
deriving DecidableEq

/-- Embeds the loop of `runFirstAvailableCommandWithProgress` (src/index.js
lines 195-254).  The cancellation token is read at the top of each iteration
(line 200) and again in the catch block after an error (line 241); `token n`
is the value of `isCancellationRequested` at its n-th read and the counter
`t` counts reads made so far.  Progress reporting (lines 205-222) is a
write-only side channel and is not recorded; the per-attempt cancellation
listener (lines 224-237) only forwards cancellation to the child process,
whose behaviour is already summarised by the outcome `exec` assigns to the
candidate. -/
def runWithProgressGo (exec : CommandCandidate → ExecOutcome) (token : Nat → Bool) :
    List CommandCandidate → Nat → Option JsError → PRunTrace
  | [], _, latestError => ⟨[], .err (latestError.getD noCandidatesError)⟩
  | commandCandidate :: rest, t, _latestError =>
    if token t then ⟨[], .cancelled⟩
    else
      match exec commandCandidate with
      | .success r => ⟨[commandCandidate.command], .ok r commandCandidate.command⟩
      | .failure e =>
        if token (t + 1) then ⟨[commandCandidate.command], .cancelled⟩
        else if isCommandNotFoundError e then
          let tr := runWithProgressGo exec token rest (t + 2) (some e)
          ⟨commandCandidate.command :: tr.attempts, tr.outcome⟩
        else ⟨[commandCandidate.command], .err e⟩

/-- Embeds `runFirstAvailableCommandWithProgress` (src/index.js lines
195-254). -/
def runFirstAvailableCommandWithProgress (exec : CommandCandidate → ExecOutcome)
    (token : Nat → Bool) (commandCandidates : List CommandCandidate) : PRunTrace :=
  runWithProgressGo exec token commandCandidates 0 none

/-- Outcome of the host binary path resolver `sigma.binary.getPath`: a
resolved path string, a null result, or a rejection (which the caller
swallows). -/
inductive ResolveOutcome where
  | resolved (path : String)
  | noPath
  | failed
deriving DecidableEq

/-- Embeds `getDenoCommandCandidates` (src/index.js lines 175-193): a
resolved path is pushed first when truthy (non-empty) and recorded in the
added set; a resolver rejection is swallowed by the empty catch; the bare
name deno is appended unless already added. -/
def getDenoCommandCandidates (resolve : ResolveOutcome) (denoArgs : List String) :
    List CommandCandidate :=
  let first : List CommandCandidate :=
    match resolve with
    | .resolved denoBinaryPath =>
      if denoBinaryPath ≠ "" then [⟨denoBinaryPath, denoArgs⟩] else []
    | .noPath => []
    | .failed => []
  let addedCommands : List String := first.map (fun c => c.command)
  if addedCommands.contains "deno" then first
  else first ++ [⟨"deno", denoArgs⟩]

/-- Embeds `getWindowsPowerShellCandidates` (src/index.js lines 26-32). -/
def getWindowsPowerShellCandidates (script : String) : List CommandCandidate :=
  [⟨"powershell", ["-NoProfile", "-Command", script]⟩,
   ⟨"pwsh", ["-NoProfile", "-Command", script]⟩,
   ⟨"C:\\Windows\\System32\\WindowsPowerShell\\v1.0\\powershell.exe",
     ["-NoProfile", "-Command", script]⟩]

/-- Record handed to the caller-supplied `parseOutput` on success
(src/index.js lines 94-102).  The `timedOut` flag and the abort signal belong
to the real-time timer machinery, which is not modelled; the `error` field is
always undefined on this path because a non-zero exit throws instead. -/
structure PSParsed where
  stdout : String
  stderr : String
  exitCode : Int
  command : String
deriving DecidableEq

/-- Error built for a non-zero exit (src/index.js line 88): the captured
stderr when non-empty, otherwise a generic exited-with-code message. -/
def psExitError (c : CommandCandidate) (r : ExecResult) : JsError :=
  ⟨0, if r.stderr = "" then c.command ++ " exited with code " ++ toString r.code
      else r.stderr⟩

/-- Command text attached to the parsed output (src/index.js line 85). -/
def commandText (c : CommandCandidate) : String :=
  c.command ++ " " ++ String.intercalate " " c.args

/-- Error thrown when every PowerShell candidate was exhausted with no
remembered error (src/index.js line 119). -/
def psNoCandidatesError : JsError :=
  ⟨0, "No available PowerShell command candidates"⟩

/-- Embeds the candidate loop of `runPowerShellScript` (src/index.js lines
46-119): a launch rejection is caught and classified; a completion with a
non-zero exit code throws `psExitError`, which the same catch block then
classifies exactly like a launch error; a zero exit returns the record for
`parseOutput`.  The setTimeout race and the abort-signal listener only
request cancellation of the child process and are cleared in the finally
block; they do not alter this sequential result path and are not
modelled. -/
def runPowerShellCandidates (exec : CommandCandidate → ExecOutcome) :
    List CommandCandidate → Option JsError → Except JsError PSParsed
  | [], latestError => .error (latestError.getD psNoCandidatesError)
  | commandCandidate :: rest, _latestError =>
    match exec commandCandidate with
    | .failure e =>
      if isCommandNotFoundError e then runPowerShellCandidates exec rest (some e)
      else .error e
    | .success r =>
      if r.code = 0 then
        .ok ⟨r.stdout, r.stderr, r.code, commandText commandCandidate⟩
      else if isCommandNotFoundError (psExitError commandCandidate r) then
        runPowerShellCandidates exec rest (some (psExitError commandCandidate r))
      else .error (psExitError commandCandidate r)

/-- Embeds `runPowerShellScript` (src/index.js lines 34-120) on Windows,
with the execution capability injected. -/
def runPowerShellScript (exec : CommandCandidate → ExecOutcome) (script : String) :
    Except JsError PSParsed :=
  runPowerShellCandidates exec (getWindowsPowerShellCandidates script) none

/-! Helper lemmas. -/

/-- The Bool substring scan agrees with the mathematical occurrence
predicate: `pat` occurs in `l` exactly when `l` splits around `pat`. -/
theorem substrList_iff_parts (pat : List Char) :
    ∀ l : List Char, substrList pat l = true ↔ ∃ a b : List Char, a ++ pat ++ b = l := by
  have key : ∀ l : List Char, substrList pat l = true ↔ pat <:+: l := by
    intro l
    induction l with
    | nil =>
      simp [substrList, List.isPrefixOf_iff_prefix, List.prefix_nil, List.infix_nil]
    | cons c rest ih =>
      simp [substrList, ih, List.isPrefixOf_iff_prefix, List.infix_cons_iff]
  intro l
  rw [key l]
  exact Iff.rfl

/-- Unfolding `runFirstGo` on a candidate whose execution resolves. -/
theorem runFirstGo_cons_success (exec : CommandCandidate → ExecOutcome)
    (c : CommandCandidate) (rest : List CommandCandidate) (latest : Option JsError)
    (r : ExecResult) (hc : exec c = .success r) :
    runFirstGo exec (c :: rest) latest = ⟨[c.command], .ok ⟨r, c.command⟩⟩ := by
  simp [runFirstGo, hc]

/-- Unfolding `runFirstGo` on a candidate whose execution rejects with a
NotFound-class error: the loop continues on the remaining candidates with the
error remembered. -/
theorem runFirstGo_cons_notfound (exec : CommandCandidate → ExecOutcome)
    (c : CommandCandidate) (rest : List CommandCandidate) (latest : Option JsError)
    (e : JsError) (hc : exec c = .failure e) (hnf : isCommandNotFoundError e = true) :
    runFirstGo exec (c :: rest) latest =
      ⟨c.command :: (runFirstGo exec rest (some e)).attempts,
       (runFirstGo exec rest (some e)).outcome⟩ := by
  simp [runFirstGo, hc, hnf]

/-- Unfolding `runFirstGo` on a candidate whose execution rejects with a
non-NotFound error: the error is rethrown at once. -/
theorem runFirstGo_cons_fatal (exec : CommandCandidate → ExecOutcome)
    (c : CommandCandidate) (rest : List CommandCandidate) (latest : Option JsError)
    (e : JsError) (hc : exec c = .failure e) (hnf : isCommandNotFoundError e = false) :
    runFirstGo exec (c :: rest) latest = ⟨[c.command], .error e⟩ := by
  simp [runFirstGo, hc, hnf]

/-- Skipping a block of NotFound-failing candidates: the run on `pre ++ rest`
attempts every candidate of `pre` in order and then behaves as the run on
`rest` from some remembered error, which is the error of the last candidate
of `pre` when `pre` is non-empty. -/
theorem runFirstGo_append (exec : CommandCandidate → ExecOutcome)
    (pre : List CommandCandidate) :
    ∀ (rest : List CommandCandidate) (latest : Option JsError),
      (∀ c ∈ pre, ∃ e, exec c = .failure e ∧ isCommandNotFoundError e = true) →
      ∃ latest2 : Option JsError,
        runFirstGo exec (pre ++ rest) latest =
          ⟨pre.map (fun cc => cc.command) ++ (runFirstGo exec rest latest2).attempts,
           (runFirstGo exec rest latest2).outcome⟩ ∧
        (pre = [] → latest2 = latest) ∧
        (∀ clast, pre.getLast? = some clast → ∃ e, exec clast = .failure e ∧
          isCommandNotFoundError e = true ∧ latest2 = some e) := by
  induction pre with
  | nil =>
    intro rest latest _
    exact ⟨latest, rfl, fun _ => rfl, by simp⟩
  | cons c pre' ih =>
    intro rest latest hpre
    obtain ⟨e, hce, hnf⟩ := hpre c (List.mem_cons_self c pre')
    obtain ⟨latest2, heq, hnil, hlast⟩ :=
      ih rest (some e) (fun c' hc' => hpre c' (List.mem_cons_of_mem c hc'))
    refine ⟨latest2, ?_, ?_, ?_⟩
    · rw [List.cons_append, runFirstGo_cons_notfound exec c (pre' ++ rest) latest e hce hnf,
        heq]
      simp
    · intro h
      cases h
    · intro clast hcl
      cases pre' with
      | nil =>
        rw [List.getLast?_singleton] at hcl
        cases hcl
        exact ⟨e, hce, hnf, hnil rfl⟩
      | cons c2 pre'' =>
        rw [List.getLast?_cons_cons] at hcl
        exact hlast clast hcl

/-- Unfolding `runWithProgressGo` on a candidate whose execution resolves,
with no cancellation pending at the loop-top read. -/
theorem runWithProgressGo_cons_success (exec : CommandCandidate → ExecOutcome)
    (token : Nat → Bool) (c : CommandCandidate) (rest : List CommandCandidate)
    (t : Nat) (latest : Option JsError) (r : ExecResult)
    (ht0 : token t = false) (hc : exec c = .success r) :
    runWithProgressGo exec token (c :: rest) t latest =
      ⟨[c.command], .ok r c.command⟩ := by
  simp [runWithProgressGo, ht0, hc]

/-- Unfolding `runWithProgressGo` on a candidate whose execution rejects with
a NotFound-class error while both token reads return false. -/
theorem runWithProgressGo_cons_notfound (exec : CommandCandidate → ExecOutcome)
    (token : Nat → Bool) (c : CommandCandidate) (rest : List CommandCandidate)
    (t : Nat) (latest : Option JsError) (e : JsError)
    (ht0 : token t = false) (ht1 : token (t + 1) = false)
    (hc : exec c = .failure e) (hnf : isCommandNotFoundError e = true) :
    runWithProgressGo exec token (c :: rest) t latest =
      ⟨c.command :: (runWithProgressGo exec token rest (t + 2) (some e)).attempts,
       (runWithProgressGo exec token rest (t + 2) (some e)).outcome⟩ := by
  simp [runWithProgressGo, ht0, ht1, hc, hnf]

/-- Unfolding `runWithProgressGo` on a candidate whose execution rejects with
a non-NotFound error while both token reads return false. -/
theorem runWithProgressGo_cons_fatal (exec : CommandCandidate → ExecOutcome)
    (token : Nat → Bool) (c : CommandCandidate) (rest : List CommandCandidate)
    (t : Nat) (latest : Option JsError) (e : JsError)
    (ht0 : token t = false) (ht1 : token (t + 1) = false)
    (hc : exec c = .failure e) (hnf : isCommandNotFoundError e = false) :
    runWithProgressGo exec token (c :: rest) t latest =
      ⟨[c.command], .err e⟩ := by
  simp [runWithProgressGo, ht0, ht1, hc, hnf]

/-- Skipping a block of NotFound-failing candidates in the progress variant,
under a token that never reports cancellation. -/
theorem runWithProgressGo_append (exec : CommandCandidate → ExecOutcome)
    (token : Nat → Bool) (htok : ∀ n, token n = false)
    (pre : List CommandCandidate) :
    ∀ (rest : List CommandCandidate) (t : Nat) (latest : Option JsError),
      (∀ c ∈ pre, ∃ e, exec c = .failure e ∧ isCommandNotFoundError e = true) →
      ∃ (latest2 : Option JsError) (t2 : Nat),
        runWithProgressGo exec token (pre ++ rest) t latest =
          ⟨pre.map (fun cc => cc.command) ++
             (runWithProgressGo exec token rest t2 latest2).attempts,
           (runWithProgressGo exec token rest t2 latest2).outcome⟩ ∧
        (pre = [] → latest2 = latest) ∧
        (∀ clast, pre.getLast? = some clast → ∃ e, exec clast = .failure e ∧
          isCommandNotFoundError e = true ∧ latest2 = some e) := by
  induction pre with
  | nil =>
    intro rest t latest _
    exact ⟨latest, t, rfl, fun _ => rfl, by simp⟩
  | cons c pre' ih =>
    intro rest t latest hpre
    obtain ⟨e, hce, hnf⟩ := hpre c (List.mem_cons_self c pre')
    obtain ⟨latest2, t2, heq, hnil, hlast⟩ :=
      ih rest (t + 2) (some e) (fun c' hc' => hpre c' (List.mem_cons_of_mem c hc'))
    refine ⟨latest2, t2, ?_, ?_, ?_⟩
    · rw [List.cons_append,
        runWithProgressGo_cons_notfound exec token c (pre' ++ rest) t latest e
          (htok t) (htok (t + 1)) hce hnf,
        heq]
      simp
    · intro h
      cases h
    · intro clast hcl
      cases pre' with
      | nil =>
        rw [List.getLast?_singleton] at hcl
        cases hcl
        exact ⟨e, hce, hnf, hnil rfl⟩
      | cons c2 pre'' =>
        rw [List.getLast?_cons_cons] at hcl
        exact hlast clast hcl

/-- Parsing steps over a character that is not a single quote. -/
theorem parseSingleQuotedBody_cons_nonquote (c : Char) (t : List Char) (h : c ≠ sqc) :
    parseSingleQuotedBody (c :: t) = c :: parseSingleQuotedBody t := by
  cases t with
  | nil => simp [parseSingleQuotedBody, h]
  | cons c2 t' => simp [parseSingleQuotedBody, h]

/-- Parsing turns a doubled single quote back into one single quote. -/
theorem parseSingleQuotedBody_quote_quote (t : List Char) :
    parseSingleQuotedBody (sqc :: sqc :: t) = sqc :: parseSingleQuotedBody t := by
  simp [parseSingleQuotedBody]

/-- Round trip on character lists: parsing the quote-doubled list recovers
the original list. -/
theorem parse_escape_list (l : List Char) :
    parseSingleQuotedBody ((l.map dupQuote).flatten) = l := by
  induction l with
  | nil => rfl
  | cons c l' ih =>
    by_cases h : c = sqc
    · subst h
      simp [dupQuote, parseSingleQuotedBody_quote_quote, ih]
    · simp [dupQuote, h, parseSingleQuotedBody_cons_nonquote c _ h, ih]

/-- Quote-doubling leaves a list without single quotes unchanged. -/
theorem flatten_dupQuote_of_no_quote (l : List Char) (h : ∀ c ∈ l, c ≠ sqc) :
    (l.map dupQuote).flatten = l := by
  induction l with
  | nil => rfl
  | cons c l' ih =>
    have hc : c ≠ sqc := h c (List.mem_cons_self c l')
    simp [dupQuote, hc, ih (fun c' hc' => h c' (List.mem_cons_of_mem c hc'))]

/-! Claim theorems. -/

/-- C1: for both the plain and the progress fallback runner, when each of
the first K candidates rejects with a NotFound-class error and candidate
K+1 resolves, the runner attempts exactly candidates 1..K+1 in list order
and returns candidate K+1 execution result together with its command
identifier (the progress variant under a token that never reports
cancellation). -/
theorem c1_runner_attempts_prefix_then_returns_success
    (exec : CommandCandidate → ExecOutcome)
    (pre : List CommandCandidate) (c : CommandCandidate)
    (post : List CommandCandidate) (r : ExecResult)
    (hpre : ∀ c' ∈ pre, ∃ e, exec c' = .failure e ∧ isCommandNotFoundError e = true)
    (hc : exec c = .success r) :
    runFirstAvailableCommand exec (pre ++ c :: post) =
      ⟨pre.map (fun cc => cc.command) ++ [c.command], .ok ⟨r, c.command⟩⟩ ∧
    ∀ token : Nat → Bool, (∀ n, token n = false) →
      runFirstAvailableCommandWithProgress exec token (pre ++ c :: post) =
        ⟨pre.map (fun cc => cc.command) ++ [c.command], .ok r c.command⟩ := by
  constructor
  · obtain ⟨latest2, heq, -, -⟩ := runFirstGo_append exec pre (c :: post) none hpre
    unfold runFirstAvailableCommand
    rw [heq, runFirstGo_cons_success exec c post latest2 r hc]
  · intro token htok
    obtain ⟨latest2, t2, heq, -, -⟩ :=
      runWithProgressGo_append exec token htok pre (c :: post) 0 none hpre
    unfold runFirstAvailableCommandWithProgress
    rw [heq, runWithProgressGo_cons_success exec token c post t2 latest2 r (htok t2) hc]

/-- C2: for both runner variants, when the execution of the candidate at
position K rejects with a non-NotFound error, the runner attempts no
candidate beyond position K and propagates exactly that error value (the
progress variant under a token that never reports cancellation). -/
theorem c2_fatal_error_stops_and_propagates
    (exec : CommandCandidate → ExecOutcome)
    (pre : List CommandCandidate) (c : CommandCandidate)
    (post : List CommandCandidate) (e : JsError)
    (hpre : ∀ c' ∈ pre, ∃ e', exec c' = .failure e' ∧ isCommandNotFoundError e' = true)
    (hc : exec c = .failure e) (hnf : isCommandNotFoundError e = false) :
    runFirstAvailableCommand exec (pre ++ c :: post) =
      ⟨pre.map (fun cc => cc.command) ++ [c.command], .error e⟩ ∧
    ∀ token : Nat → Bool, (∀ n, token n = false) →
      runFirstAvailableCommandWithProgress exec token (pre ++ c :: post) =
        ⟨pre.map (fun cc => cc.command) ++ [c.command], .err e⟩ := by
  constructor
  · obtain ⟨latest2, heq, -, -⟩ := runFirstGo_append exec pre (c :: post) none hpre
    unfold runFirstAvailableCommand
    rw [heq, runFirstGo_cons_fatal exec c post latest2 e hc hnf]
  · intro token htok
    obtain ⟨latest2, t2, heq, -, -⟩ :=
      runWithProgressGo_append exec token htok pre (c :: post) 0 none hpre
    unfold runFirstAvailableCommandWithProgress
    rw [heq, runWithProgressGo_cons_fatal exec token c post t2 latest2 e
      (htok t2) (htok (t2 + 1)) hc hnf]

/-- C3: in the progress variant, for any candidate attempt whose execution
throws — at any list position, remembered error and token-read count, hence
at any reachable loop state — if the cancellation token reads true at the
moment the error is caught, the run returns the cancelled record instead of
classifying the error as NotFound (advancing) or propagating it; in
particular the whole function does so for an attempt entered with no
cancellation pending. -/
theorem c3_cancellation_overrides_error_classification
    (exec : CommandCandidate → ExecOutcome) (token : Nat → Bool)
    (c : CommandCandidate) (rest : List CommandCandidate) (e : JsError)
    (hc : exec c = .failure e) :
    (∀ (t : Nat) (latest : Option JsError),
      token t = false → token (t + 1) = true →
      runWithProgressGo exec token (c :: rest) t latest =
        ⟨[c.command], .cancelled⟩) ∧
    (token 0 = false → token 1 = true →
      runFirstAvailableCommandWithProgress exec token (c :: rest) =
        ⟨[c.command], .cancelled⟩) := by
  have hgo : ∀ (t : Nat) (latest : Option JsError),
      token t = false → token (t + 1) = true →
      runWithProgressGo exec token (c :: rest) t latest =
        ⟨[c.command], .cancelled⟩ := by
    intro t latest ht0 ht1
    simp [runWithProgressGo, ht0, ht1, hc]
  exact ⟨hgo, fun h0 h1 => hgo 0 none h0 h1⟩

/-- C4: a thrown error is classified NotFound exactly when its message,
lower-cased, contains one of the three substrings (stated through the
occurrence predicate, not the scanning function), and on a matched error the
runner proceeds to the remaining candidates remembering that error as the
latest error. -/
theorem c4_notfound_iff_substring_and_advances :
    (∀ error : JsError,
      isCommandNotFoundError error = true ↔
        ((∃ a b : List Char,
            a ++ "not found".data ++ b = (strToLower (getErrorMessage error)).data) ∨
         (∃ a b : List Char,
            a ++ "does not exist".data ++ b = (strToLower (getErrorMessage error)).data) ∨
         (∃ a b : List Char,
            a ++ "cannot find".data ++ b = (strToLower (getErrorMessage error)).data))) ∧
    (∀ (exec : CommandCandidate → ExecOutcome) (c : CommandCandidate)
        (rest : List CommandCandidate) (latest : Option JsError) (e : JsError),
      exec c = ExecOutcome.failure e → isCommandNotFoundError e = true →
      runFirstGo exec (c :: rest) latest =
        ⟨c.command :: (runFirstGo exec rest (some e)).attempts,
         (runFirstGo exec rest (some e)).outcome⟩) := by
  constructor
  · intro error
    simp [isCommandNotFoundError, strIncludes, Bool.or_eq_true, substrList_iff_parts]
    exact or_assoc
  · intro exec c rest latest e hc hnf
    exact runFirstGo_cons_notfound exec c rest latest e hc hnf

/-- Concrete strings of the escaping example: the name containing two single
quotes and its escaped form with each quote doubled. -/
def obrienInput : String :=
  "O" ++ ⟨[sqc]⟩ ++ "Brien" ++ ⟨[sqc]⟩ ++ "s file.txt"

/-- Escaped form of `obrienInput`. -/
def obrienEscaped : String :=
  "O" ++ ⟨[sqc, sqc]⟩ ++ "Brien" ++ ⟨[sqc, sqc]⟩ ++ "s file.txt"

/-- C5: the shell-escape function doubles every single quote and changes
nothing else: embedding its output in a single-quoted PowerShell literal and
parsing by the shell quoting rules reconstructs the input exactly, a string
without single quotes is returned unchanged, and the O Brien example escapes
as specified. -/
theorem c5_escape_roundtrip :
    (∀ s : String,
      parseSingleQuotedBody (escapeForPowerShellSingleQuotes s).data = s.data) ∧
    (∀ s : String, (∀ c ∈ s.data, c ≠ sqc) →
      escapeForPowerShellSingleQuotes s = s) ∧
    escapeForPowerShellSingleQuotes obrienInput = obrienEscaped := by
  refine ⟨?_, ?_, ?_⟩
  · intro s
    simpa [escapeForPowerShellSingleQuotes] using parse_escape_list s.data
  · intro s h
    cases s with
    | mk data =>
      simp [escapeForPowerShellSingleQuotes, flatten_dupQuote_of_no_quote data h]
  · decide

/-- C6: a candidate whose execution resolves ends the plain runner with that
execution result and the candidate identifier, even when the exit code is
non-zero: the exit code is returned as data, never used as a fallback
trigger and never turned into a thrown error. -/
theorem c6_nonzero_exit_returned_as_success
    (exec : CommandCandidate → ExecOutcome)
    (pre : List CommandCandidate) (c : CommandCandidate)
    (post : List CommandCandidate) (r : ExecResult)
    (hpre : ∀ c' ∈ pre, ∃ e, exec c' = .failure e ∧ isCommandNotFoundError e = true)
    (hc : exec c = .success r) (_hcode : r.code ≠ 0) :
    (runFirstAvailableCommand exec (pre ++ c :: post)).outcome =
      Except.ok ⟨r, c.command⟩ := by
  obtain ⟨latest2, heq, -, -⟩ := runFirstGo_append exec pre (c :: post) none hpre
  unfold runFirstAvailableCommand
  rw [heq, runFirstGo_cons_success exec c post latest2 r hc]

/-- C7: when every candidate of the list rejects with a NotFound-class
error, both runner variants fail with exactly the error of the last
candidate (so its message is whatever that last error carried), and on the
empty candidate list both fail with the generic no-candidates error. -/
theorem c7_exhaustion_throws_last_error
    (exec : CommandCandidate → ExecOutcome) (cs : List CommandCandidate)
    (hall : ∀ c ∈ cs, ∃ e, exec c = .failure e ∧ isCommandNotFoundError e = true) :
    (cs = [] →
      runFirstAvailableCommand exec cs = ⟨[], Except.error noCandidatesError⟩ ∧
      ∀ token : Nat → Bool,
        runFirstAvailableCommandWithProgress exec token cs =
          ⟨[], .err noCandidatesError⟩) ∧
    (∀ clast, cs.getLast? = some clast → ∃ e,
      exec clast = .failure e ∧ isCommandNotFoundError e = true ∧
      (runFirstAvailableCommand exec cs).outcome = Except.error e ∧
      ∀ token : Nat → Bool, (∀ n, token n = false) →
        (runFirstAvailableCommandWithProgress exec token cs).outcome = .err e) := by
  constructor
  · intro h
    subst h
    exact ⟨rfl, fun token => rfl⟩
  · intro clast hcl
    obtain ⟨latest2, heq, -, hlast⟩ := runFirstGo_append exec cs [] none hall
    obtain ⟨e, hce, hnf, hl2⟩ := hlast clast hcl
    refine ⟨e, hce, hnf, ?_, ?_⟩
    · rw [List.append_nil] at heq
      unfold runFirstAvailableCommand
      rw [heq, hl2]
      rfl
    · intro token htok
      obtain ⟨latest2p, t2, heqp, -, hlastp⟩ :=
        runWithProgressGo_append exec token htok cs [] 0 none hall
      obtain ⟨e', hce', -, hl2p⟩ := hlastp clast hcl
      have h3 := hce.symm.trans hce'
      injection h3 with h4
      rw [List.append_nil] at heqp
      unfold runFirstAvailableCommandWithProgress
      rw [heqp, hl2p, ← h4]
      rfl

/-- C8: the external-runtime candidate list builder puts the resolved
absolute path first whenever one was obtained, always appends the bare name
deno afterwards unless it duplicates the resolved identifier, treats a
resolver failure like a null resolution, and never returns an empty list. -/
theorem c8_deno_candidate_list (denoArgs : List String) :
    (∀ ro : ResolveOutcome, getDenoCommandCandidates ro denoArgs ≠ []) ∧
    getDenoCommandCandidates .failed denoArgs = [⟨"deno", denoArgs⟩] ∧
    getDenoCommandCandidates .noPath denoArgs = [⟨"deno", denoArgs⟩] ∧
    (∀ path : String, path ≠ "" →
      (getDenoCommandCandidates (.resolved path) denoArgs).head? =
        some ⟨path, denoArgs⟩ ∧
      (path ≠ "deno" →
        getDenoCommandCandidates (.resolved path) denoArgs =
          [⟨path, denoArgs⟩, ⟨"deno", denoArgs⟩]) ∧
      (path = "deno" →
        getDenoCommandCandidates (.resolved path) denoArgs =
          [⟨"deno", denoArgs⟩])) := by
  refine ⟨?_, ?_, ?_, ?_⟩
  · intro ro
    cases ro with
    | resolved p =>
      by_cases hp : p = ""
      · subst hp
        simp [getDenoCommandCandidates]
      · by_cases hd : p = "deno"
        · subst hd
          simp [getDenoCommandCandidates]
        · have hd2 : "deno" ≠ p := fun h => hd h.symm
          simp [getDenoCommandCandidates, hp, hd2]
    | noPath => simp [getDenoCommandCandidates]
    | failed => simp [getDenoCommandCandidates]
  · simp [getDenoCommandCandidates]
  · simp [getDenoCommandCandidates]
  · intro path hp
    refine ⟨?_, ?_, ?_⟩
    · by_cases hd : path = "deno"
      · subst hd
        simp [getDenoCommandCandidates]
      · have hd2 : "deno" ≠ path := fun h => hd h.symm
        simp [getDenoCommandCandidates, hp, hd2]
    · intro hd
      have hd2 : "deno" ≠ path := fun h => hd h.symm
      simp [getDenoCommandCandidates, hp, hd2]
    · intro hd
      subst hd
      simp [getDenoCommandCandidates]

/-- C10: in the platform-shell runner, a candidate completing with a
non-zero exit code is turned into a thrown error whose message is the
captured stderr, or a generic exited-with-code message when stderr is empty
(`psExitError`); the same catch then classifies that error, so when the
message contains a not-found substring the loop silently advances to the
next PowerShell candidate remembering it, and otherwise the error is
propagated. -/
theorem c10_ps_nonzero_exit_classified_as_error
    (exec : CommandCandidate → ExecOutcome) (c : CommandCandidate)
    (rest : List CommandCandidate) (latest : Option JsError) (r : ExecResult)
    (hc : exec c = .success r) (hcode : r.code ≠ 0) :
    (isCommandNotFoundError (psExitError c r) = true →
      runPowerShellCandidates exec (c :: rest) latest =
        runPowerShellCandidates exec rest (some (psExitError c r))) ∧
    (isCommandNotFoundError (psExitError c r) = false →
      runPowerShellCandidates exec (c :: rest) latest =
        Except.error (psExitError c r)) ∧
    (∀ script, runPowerShellScript exec script =
      runPowerShellCandidates exec (getWindowsPowerShellCandidates script) none) := by
  refine ⟨?_, ?_, fun script => rfl⟩
  · intro h
    simp [runPowerShellCandidates, hc, hcode, h]
  · intro h
    simp [runPowerShellCandidates, hc, hcode, h]

/-! Concrete fixtures used to instantiate the claim theorems. -/

/-- Fixture candidate: the bare deno command. -/
def wDeno : CommandCandidate := ⟨"deno", ["run"]⟩

/-- Fixture candidate: the powershell command. -/
def wPwsh : CommandCandidate := ⟨"powershell", ["-NoProfile"]⟩

/-- Fixture candidate past the failing position. -/
def wExtra : CommandCandidate := ⟨"extra", []⟩

/-- Fixture NotFound-class rejection. -/
def wNotFoundError : JsError := ⟨1, "deno: command not found"⟩

/-- Fixture fatal (non-NotFound) rejection. -/
def wFatalError : JsError := ⟨2, "permission denied"⟩

/-- Fixture result with exit code zero. -/
def wOkResult : ExecResult := ⟨0, "ok", ""⟩

/-- Fixture result with a non-zero exit code. -/
def wCode3Result : ExecResult := ⟨3, "out", "err"⟩

/-- Fixture capability: deno is missing, everything else resolves. -/
def wExecFallback : CommandCandidate → ExecOutcome := fun c =>
  if c.command = "deno" then .failure wNotFoundError else .success wOkResult

/-- Fixture capability: deno is missing, everything else fails fatally. -/
def wExecFatal : CommandCandidate → ExecOutcome := fun c =>
  if c.command = "deno" then .failure wNotFoundError else .failure wFatalError

/-- Fixture capability: every candidate resolves with exit code 3. -/
def wExecCode3 : CommandCandidate → ExecOutcome := fun _ => .success wCode3Result

/-- Fixture capability: every candidate completes with exit code 1 and a
stderr that matches the not-found classifier. -/
def wExecPS : CommandCandidate → ExecOutcome := fun _ =>
  .success ⟨1, "", "pwsh: not found"⟩

/-- Fixture token: cancellation becomes visible exactly at the second read. -/
def wTokenAt1 : Nat → Bool := fun n => n == 1

/-- Witness for C1: deno rejects NotFound, powershell resolves; both
attempted in order, the powershell result and identifier returned. -/
theorem c1_witness :
    runFirstAvailableCommand wExecFallback [wDeno, wPwsh] =
      ⟨["deno", "powershell"], .ok ⟨wOkResult, "powershell"⟩⟩ := by
  have h := (c1_runner_attempts_prefix_then_returns_success wExecFallback [wDeno] wPwsh []
    wOkResult
    (by
      intro c' hc'
      rw [List.mem_singleton] at hc'
      subst hc'
      exact ⟨wNotFoundError, by decide, by decide⟩)
    (by decide)).1
  exact h.trans (by decide)

/-- Witness for C2: a fatal error at position 2 stops the run before the
third candidate and propagates the same error value. -/
theorem c2_witness :
    runFirstAvailableCommand wExecFatal [wDeno, wPwsh, wExtra] =
      ⟨["deno", "powershell"], .error wFatalError⟩ := by
  have h := (c2_fatal_error_stops_and_propagates wExecFatal [wDeno] wPwsh [wExtra]
    wFatalError
    (by
      intro c' hc'
      rw [List.mem_singleton] at hc'
      subst hc'
      exact ⟨wNotFoundError, by decide, by decide⟩)
    (by decide) (by decide)).1
  exact h.trans (by decide)

/-- Witness for C3: cancellation visible at the catch read turns a NotFound
rejection into the cancelled outcome instead of advancing to powershell. -/
theorem c3_witness :
    runFirstAvailableCommandWithProgress wExecFallback wTokenAt1 [wDeno, wPwsh] =
      ⟨["deno"], .cancelled⟩ := by
  have h := (c3_cancellation_overrides_error_classification wExecFallback wTokenAt1
    wDeno [wPwsh] wNotFoundError (by decide)).2 (by decide) (by decide)
  exact h.trans (by decide)

/-- Witness for C4: the classified NotFound rejection makes the loop advance
to the next candidate. -/
theorem c4_witness :
    runFirstGo wExecFallback [wDeno, wPwsh] none =
      ⟨["deno", "powershell"], .ok ⟨wOkResult, "powershell"⟩⟩ := by
  have h := (c4_notfound_iff_substring_and_advances).2 wExecFallback wDeno [wPwsh] none
    wNotFoundError (by decide) (by decide)
  exact h.trans (by decide)

/-- Witness for C5: a quote-free string is returned unchanged. -/
theorem c5_witness : escapeForPowerShellSingleQuotes "abc 123" = "abc 123" :=
  (c5_escape_roundtrip).2.1 "abc 123" (by decide)

/-- Witness for C6: an execution resolving with exit code 3 is returned as
the successful outcome. -/
theorem c6_witness :
    (runFirstAvailableCommand wExecCode3 [wPwsh]).outcome =
      Except.ok ⟨wCode3Result, "powershell"⟩ := by
  have h := c6_nonzero_exit_returned_as_success wExecCode3 [] wPwsh [] wCode3Result
    (by
      intro c' hc'
      exact absurd hc' (List.not_mem_nil c'))
    (by decide) (by decide)
  exact h.trans (by decide)

/-- Witness for C7: a single NotFound candidate makes the runner fail with
exactly that candidate error. -/
theorem c7_witness :
    (runFirstAvailableCommand wExecFatal [wDeno]).outcome =
      Except.error wNotFoundError := by
  obtain ⟨e, he, -, hout, -⟩ := (c7_exhaustion_throws_last_error wExecFatal [wDeno]
    (by
      intro c' hc'
      rw [List.mem_singleton] at hc'
      subst hc'
      exact ⟨wNotFoundError, by decide, by decide⟩)).2 wDeno (by decide)
  have h2 : wExecFatal wDeno = .failure wNotFoundError := by decide
  have h3 := he.symm.trans h2
  injection h3 with h4
  rw [← h4]
  exact hout

/-- Witness for C8: a resolved absolute path comes first and the bare deno
is appended afterwards. -/
theorem c8_witness :
    getDenoCommandCandidates (.resolved "/usr/bin/deno") ["run"] =
      [⟨"/usr/bin/deno", ["run"]⟩, ⟨"deno", ["run"]⟩] :=
  ((c8_deno_candidate_list ["run"]).2.2.2 "/usr/bin/deno" (by decide)).2.1 (by decide)

/-- Witness for C10: a completion with exit code 1 and a not-found stderr
makes the PowerShell loop advance past the candidate, ending with that
error once the list is exhausted. -/
theorem c10_witness :
    runPowerShellCandidates wExecPS [wPwsh] none =
      Except.error ⟨0, "pwsh: not found"⟩ := by
  have h := (c10_ps_nonzero_exit_classified_as_error wExecPS wPwsh [] none
    ⟨1, "", "pwsh: not found"⟩ (by decide) (by decide)).1 (by decide)
  exact h.trans (by decide)
